import Mathlib

/-!
Formalization of the zolldo to-do list manager (src/src/zolldo/zolldo.py).

The program keeps a single in-memory mapping from integer task id to task
record together with a running maximum id, and rewrites one JSON document on
disk after every mutation.  We embed this shallowly:

* a Python dict with integer keys is an insertion-ordered association list
  with unique keys (insertion of a present key overwrites in place, insertion
  of a fresh key appends at the end, deletion removes the entry);
* a Python datetime is modelled by the point in time it denotes, an integer
  instant (timezone-aware datetimes compare and test equal by instant, which
  is the only way the program uses them);
* isoformat and fromisoformat, and str and int applied to dict keys at the
  json boundary, are reversible textual codecs; we model them by an explicit
  decimal rendering built on Nat.digits together with its proven inverse;
* exceptions (KeyError in update_task and delete_task) become Option results
  that leave the state exactly as it was when the exception was raised;
* the file on disk is made explicit: a World is the manager together with the
  optional persisted document, and each mutating method ends by writing the
  serialized mapping to it, exactly as the Python methods end in self.save().
-/

namespace Zolldo

/-! ### Decimal text codec (models str and int on keys, and the digits inside
isoformat / fromisoformat) -/

/-- Character for a single decimal digit. -/
def digitChar (d : Nat) : Char := Char.ofNat (48 + d)

/-- Numeric value of a decimal digit character. -/
def charDigit (c : Char) : Nat := c.toNat - 48

/-- Decimal rendering of a natural number, most significant digit first.
Models Python str applied to a nonnegative int. -/
def natToString (n : Nat) : String :=
  String.mk (((Nat.digits 10 n).map digitChar).reverse)

/-- Reads a decimal string back to a natural number.  Models Python int
applied to a string of digits. -/
def stringToNat (s : String) : Nat :=
  Nat.ofDigits 10 ((s.data.map charDigit).reverse)

/-- Decimal rendering of an integer, with a leading minus sign when negative. -/
def intToString (i : Int) : String :=
  if i < 0 then String.mk ('-' :: (natToString i.natAbs).data)
  else natToString i.natAbs

/-- Reads a possibly sign-prefixed decimal string back to an integer. -/
def stringToInt (s : String) : Int :=
  if s.data.head? = some '-' then -(stringToNat (String.mk s.data.tail) : Int)
  else (stringToNat s : Int)

/-! ### Datetimes -/

/-- Models a Python datetime by the point in time it denotes.  The program
only ever compares datetimes (aware datetimes compare by instant) and
serializes them reversibly, so the calendar rendering is abstracted away. -/
structure PyDateTime where
  instant : Int
deriving DecidableEq, Repr

/-- Models datetime.isoformat: a reversible textual encoding of the instant
(the calendar text of ISO-8601 is abstracted to a decimal rendering). -/
def PyDateTime.isoformat (d : PyDateTime) : String := intToString d.instant

/-- Models datetime.fromisoformat, the inverse textual decoding. -/
def fromisoformat (s : String) : PyDateTime := PyDateTime.mk (stringToInt s)

/-! ### Data model -/

/-- Models the Task TypedDict: title, due_date, completed, description. -/
structure Task where
  title : String
  due_date : PyDateTime
  completed : Bool
  description : String
deriving DecidableEq, Repr

/-- One entry of the persisted JSON document: all fields in their on-disk
textual form (the due date as its ISO string). -/
structure SerTask where
  title : String
  due_date : String
  completed : Bool
  description : String
deriving DecidableEq, Repr

/-- The persisted JSON document: an object whose keys are decimal-string task
ids, in insertion order. -/
abbrev Document := List (String × SerTask)

/-- Models the in-memory TaskManager state: the id-to-task dict in insertion
order, and the running max_id counter. -/
structure TaskManager where
  task_dict : List (Nat × Task)
  max_id : Nat
deriving DecidableEq, Repr

/-- The whole program state: the in-memory manager and the persisted document
on disk (none when the file does not exist). -/
structure World where
  mgr : TaskManager
  disk : Option Document
deriving DecidableEq, Repr

/-! ### Python dict primitives on the association-list model -/

/-- Dict lookup: the value at the first (in a real dict: only) entry with the
given key.  Models d[k] / k in d. -/
def dictGet : List (Nat × Task) → Nat → Option Task
  | [], _ => none
  | p :: rest, k => if p.1 = k then some p.2 else dictGet rest k

/-- Dict assignment d[k] = v: overwrites in place if the key is present,
appends at the end otherwise. -/
def dictInsert : List (Nat × Task) → Nat → Task → List (Nat × Task)
  | [], k, v => [(k, v)]
  | p :: rest, k, v => if p.1 = k then (k, v) :: rest else p :: dictInsert rest k v

/-- Dict deletion del d[k]: removes the entry with the given key. -/
def dictRemove : List (Nat × Task) → Nat → List (Nat × Task)
  | [], _ => []
  | p :: rest, k => if p.1 = k then rest else p :: dictRemove rest k

/-- Keys of the dict, in insertion order. -/
def idsOf (d : List (Nat × Task)) : List Nat := d.map Prod.fst

/-! ### Persistence boundary -/

/-- Serialization of one task record, encoding the due date textually.
Models the value side of json.dump with datetime_serializer. -/
def Task.serialize (t : Task) : SerTask :=
  SerTask.mk t.title t.due_date.isoformat t.completed t.description

/-- Decoding of one persisted record back to a task.  Models the per-task
fromisoformat conversion done in the constructor. -/
def SerTask.deserialize (s : SerTask) : Task :=
  Task.mk s.title (fromisoformat s.due_date) s.completed s.description

/-- Serialization of the whole mapping: keys become decimal strings, values
are serialized records.  Models the document written by TaskManager.save. -/
def TaskManager.serialize (m : TaskManager) : Document :=
  m.task_dict.map (fun p => (natToString p.1, p.2.serialize))

/-- Models TaskManager.__init__: when a document exists, decodes each key from
its textual form to an integer and each due date from its ISO string, then
sets max_id to the largest key present, or 0 when the mapping is empty. -/
def TaskManager.init (doc : Option Document) : TaskManager :=
  match doc with
  | none => TaskManager.mk [] 0
  | some d =>
    let td := d.map (fun p => (stringToNat p.1, p.2.deserialize))
    TaskManager.mk td (if td.isEmpty then 0 else (idsOf td).foldr Nat.max 0)

/-- Models TaskManager.save: rewrites the whole document on disk. -/
def World.save (w : World) : World :=
  World.mk w.mgr (some w.mgr.serialize)

/-! ### Store operations (pure transition functions on the manager, each
lifted to the world by the trailing self.save of the Python method) -/

/-- Models TaskManager.gen_id: with no requested id, increments max_id and
returns it; with a requested id, raises max_id to it when it is larger and
returns the requested id unchanged (no collision check). -/
def TaskManager.gen_id (m : TaskManager) (id : Option Nat) : Nat × TaskManager :=
  match id with
  | none => (m.max_id + 1, TaskManager.mk m.task_dict (m.max_id + 1))
  | some i => (i, TaskManager.mk m.task_dict (if m.max_id < i then i else m.max_id))

/-- Models TaskManager.add_task without its trailing save: builds the record,
resolves the id via gen_id, stores the record at that id. -/
def TaskManager.add_task (m : TaskManager) (title : String) (due_date : PyDateTime)
    (description : String) (completed : Bool) (id : Option Nat) :
    (Task × Nat) × TaskManager :=
  let task := Task.mk title due_date completed description
  let r := m.gen_id id
  ((task, r.1), TaskManager.mk (dictInsert r.2.task_dict r.1 task) r.2.max_id)

/-- Models TaskManager.add_task including its save. -/
def World.add_task (w : World) (title : String) (due_date : PyDateTime)
    (description : String) (completed : Bool) (id : Option Nat) :
    (Task × Nat) × World :=
  let r := w.mgr.add_task title due_date description completed id
  (r.1, World.save (World.mk r.2 w.disk))

/-- Models TaskManager.list_tasks: copies the dict, filters by completion when
requested, sorts stably by title or by due date when requested (Python sorted
is stable; mergeSort is its model), and reverses the result when requested. -/
def TaskManager.list_tasks (m : TaskManager) (sort_by : Option String)
    (completed : Option Bool) (reverse : Bool) : List (Nat × Task) :=
  let filtered :=
    match completed with
    | none => m.task_dict
    | some c => m.task_dict.filter (fun p => p.2.completed == c)
  let sorted :=
    if sort_by = some "title" then
      filtered.mergeSort (fun a b => decide (a.2.title ≤ b.2.title))
    else if sort_by = some "due_date" then
      filtered.mergeSort (fun a b => decide (a.2.due_date.instant ≤ b.2.due_date.instant))
    else filtered
  if reverse then sorted.reverse else sorted

/-- Models TaskManager.update_task without its save.  The Python method first
evaluates self.task_dict[id]; on an absent id this raises KeyError before any
mutation, which we model as a none result.  On success it overwrites exactly
the fields passed as non-None arguments in the stored record (Python mutates
the stored dict in place; here the updated record is written back). -/
def TaskManager.update_task (m : TaskManager) (id : Nat) (title : Option String)
    (due_date : Option PyDateTime) (description : Option String)
    (completed : Option Bool) : Option (Task × TaskManager) :=
  match dictGet m.task_dict id with
  | none => none
  | some task =>
    let t1 := { task with title := title.getD task.title }
    let t2 := { t1 with due_date := due_date.getD t1.due_date }
    let t3 := { t2 with description := description.getD t2.description }
    let t4 := { t3 with completed := completed.getD t3.completed }
    some (t4, TaskManager.mk (dictInsert m.task_dict id t4) m.max_id)

/-- Models TaskManager.update_task including its save.  A KeyError aborts the
call before any mutation and before any save, so the world comes back
unchanged. -/
def World.update_task (w : World) (id : Nat) (title : Option String)
    (due_date : Option PyDateTime) (description : Option String)
    (completed : Option Bool) : Option Task × World :=
  match w.mgr.update_task id title due_date description completed with
  | none => (none, w)
  | some r => (some r.1, World.save (World.mk r.2 w.disk))

/-- Models TaskManager.delete_task without its save: del raises KeyError on an
absent id (none result, nothing mutated), otherwise removes the entry and
leaves max_id alone. -/
def TaskManager.delete_task (m : TaskManager) (id : Nat) : Option TaskManager :=
  match dictGet m.task_dict id with
  | none => none
  | some _ => some (TaskManager.mk (dictRemove m.task_dict id) m.max_id)

/-- Models TaskManager.delete_task including its save. -/
def World.delete_task (w : World) (id : Nat) : Option Unit × World :=
  match w.mgr.delete_task id with
  | none => (none, w)
  | some m => (some (), World.save (World.mk m w.disk))

/-- Models TaskManager.delete_all_tasks without its save: empties the mapping,
leaves max_id alone. -/
def TaskManager.delete_all_tasks (m : TaskManager) : TaskManager :=
  TaskManager.mk [] m.max_id

/-- Models TaskManager.delete_all_tasks including its save. -/
def World.delete_all_tasks (w : World) : World :=
  World.save (World.mk w.mgr.delete_all_tasks w.disk)

/-- A process started with no document on disk: the constructor yields the
empty manager. -/
def World.fresh : World := World.mk (TaskManager.init none) none

/-! ### Boundary validation helpers -/

/-- Models TaskManager.validate_id: the id text must parse as an integer
(Python int) and be strictly positive. -/
def validate_id (s : String) : Except String Nat :=
  match s.toInt? with
  | none => Except.error "Task id must be a positive integer."
  | some v =>
    if v ≤ 0 then Except.error "Task id must be a positive integer."
    else Except.ok v.toNat

/-- Models TaskManager.validate_unused_id: a valid id that is already a key of
the mapping is rejected. -/
def validate_unused_id (m : TaskManager) (s : String) : Except String Nat :=
  match validate_id s with
  | Except.error e => Except.error e
  | Except.ok v =>
    if (dictGet m.task_dict v).isSome then
      Except.error ("ID " ++ s ++ " is already in use.")
    else Except.ok v

/-! ### Correctness of the textual codecs -/

theorem charDigit_digitChar : ∀ d, d < 10 → charDigit (digitChar d) = d := by decide

theorem digitChar_ne_dash : ∀ d, d < 10 → digitChar d ≠ '-' := by decide

theorem stringToNat_natToString (n : Nat) : stringToNat (natToString n) = n := by
  unfold stringToNat natToString
  rw [show (String.mk (((Nat.digits 10 n).map digitChar).reverse)).data
      = ((Nat.digits 10 n).map digitChar).reverse from rfl]
  rw [List.map_reverse, List.reverse_reverse, List.map_map]
  have h2 : (Nat.digits 10 n).map (charDigit ∘ digitChar) = (Nat.digits 10 n).map id :=
    List.map_congr_left
      (fun d hd => charDigit_digitChar d (Nat.digits_lt_base (by norm_num) hd))
  rw [h2, List.map_id, Nat.ofDigits_digits]

theorem natToString_head_ne_dash (n : Nat) :
    (natToString n).data.head? ≠ some '-' := by
  unfold natToString
  intro h
  have hm : '-' ∈ ((Nat.digits 10 n).map digitChar).reverse :=
    List.mem_of_mem_head? (by simp [h])
  rw [List.mem_reverse] at hm
  obtain ⟨d, hd, hed⟩ := List.mem_map.mp hm
  exact digitChar_ne_dash d (Nat.digits_lt_base (by norm_num) hd) hed

theorem string_mk_data (s : String) : String.mk s.data = s := by
  cases s
  rfl

theorem stringToInt_intToString (i : Int) : stringToInt (intToString i) = i := by
  by_cases hneg : i < 0
  · have h1 : intToString i = String.mk ('-' :: (natToString i.natAbs).data) := by
      unfold intToString
      rw [if_pos hneg]
    rw [h1]
    unfold stringToInt
    have h2 : (String.mk ('-' :: (natToString i.natAbs).data)).data.head? = some '-' := rfl
    rw [if_pos h2]
    have h3 : String.mk (String.mk ('-' :: (natToString i.natAbs).data)).data.tail
        = natToString i.natAbs := by
      rw [show (String.mk ('-' :: (natToString i.natAbs).data)).data.tail
          = (natToString i.natAbs).data from rfl, string_mk_data]
    rw [h3, stringToNat_natToString]
    omega
  · have h1 : intToString i = natToString i.natAbs := by
      unfold intToString
      rw [if_neg hneg]
    rw [h1]
    unfold stringToInt
    rw [if_neg (natToString_head_ne_dash i.natAbs), stringToNat_natToString]
    omega

theorem deserialize_serialize (t : Task) : t.serialize.deserialize = t := by
  cases t with
  | mk title dd completed desc =>
    cases dd with
    | mk inst =>
      unfold Task.serialize SerTask.deserialize PyDateTime.isoformat fromisoformat
      simp [stringToInt_intToString]

theorem init_serialize_task_dict (m : TaskManager) :
    (TaskManager.init (some m.serialize)).task_dict = m.task_dict := by
  unfold TaskManager.init TaskManager.serialize
  simp only [List.map_map]
  have h : m.task_dict.map
        ((fun p => (stringToNat p.1, SerTask.deserialize p.2)) ∘
          (fun p => (natToString p.1, Task.serialize p.2)))
      = m.task_dict.map id :=
    List.map_congr_left (fun p _ => by
      simp [Function.comp, stringToNat_natToString, deserialize_serialize])
  rw [h, List.map_id]

/-! ### Association-list dict lemmas -/

theorem dictGet_dictInsert_self (d : List (Nat × Task)) (k : Nat) (v : Task) :
    dictGet (dictInsert d k v) k = some v := by
  induction d with
  | nil => simp [dictInsert, dictGet]
  | cons p rest ih =>
    by_cases h : p.1 = k <;> simp [dictInsert, dictGet, h, ih]

theorem dictGet_dictInsert_ne (d : List (Nat × Task)) (k : Nat) (v : Task)
    (j : Nat) (h : j ≠ k) : dictGet (dictInsert d k v) j = dictGet d j := by
  induction d with
  | nil =>
    simp only [dictInsert, dictGet]
    rw [if_neg (fun he : k = j => h he.symm)]
  | cons p rest ih =>
    by_cases hp : p.1 = k
    · subst hp
      have h' : ¬p.1 = j := fun he => h he.symm
      simp only [dictInsert, if_pos rfl, dictGet]
      rw [if_neg h', if_neg h']
    · simp only [dictInsert, if_neg hp, dictGet]
      by_cases hj : p.1 = j
      · rw [if_pos hj, if_pos hj]
      · rw [if_neg hj, if_neg hj, ih]

theorem isSome_dictGet_iff_mem (d : List (Nat × Task)) (k : Nat) :
    (dictGet d k).isSome ↔ k ∈ idsOf d := by
  induction d with
  | nil => simp [dictGet, idsOf]
  | cons p rest ih =>
    by_cases h : p.1 = k
    · simp [dictGet, idsOf, h]
    · have h' : ¬k = p.1 := fun he => h he.symm
      simp [dictGet, idsOf, h, h', ih]

theorem idsOf_dictInsert (d : List (Nat × Task)) (k : Nat) (v : Task) :
    idsOf (dictInsert d k v)
      = if (dictGet d k).isSome then idsOf d else idsOf d ++ [k] := by
  induction d with
  | nil => simp [dictInsert, dictGet, idsOf]
  | cons p rest ih =>
    by_cases h : p.1 = k
    · simp [dictInsert, dictGet, idsOf, h]
    · have ih' := ih
      simp only [idsOf] at ih' ⊢
      simp only [dictInsert, if_neg h, dictGet, List.map_cons, ih']
      by_cases h2 : (dictGet rest k).isSome
      · rw [if_pos h2, if_pos h2]
      · rw [if_neg h2, if_neg h2, List.cons_append]

theorem idsOf_dictInsert_of_mem (d : List (Nat × Task)) (k : Nat) (v : Task)
    (h : (dictGet d k).isSome) : idsOf (dictInsert d k v) = idsOf d := by
  rw [idsOf_dictInsert, if_pos h]

theorem mem_idsOf_dictInsert (d : List (Nat × Task)) (k : Nat) (v : Task)
    (j : Nat) (h : j ∈ idsOf (dictInsert d k v)) : j ∈ idsOf d ∨ j = k := by
  rw [idsOf_dictInsert] at h
  by_cases hs : (dictGet d k).isSome
  · rw [if_pos hs] at h
    exact Or.inl h
  · rw [if_neg hs] at h
    rcases List.mem_append.mp h with h | h
    · exact Or.inl h
    · right
      simpa using h

theorem dictRemove_sublist (d : List (Nat × Task)) (k : Nat) :
    (dictRemove d k).Sublist d := by
  induction d with
  | nil => simp [dictRemove]
  | cons p rest ih =>
    by_cases h : p.1 = k
    · simp only [dictRemove, if_pos h]
      exact List.sublist_cons_self p rest
    · simp only [dictRemove, if_neg h]
      exact List.Sublist.cons₂ p ih

theorem mem_idsOf_dictRemove (d : List (Nat × Task)) (k : Nat) (j : Nat)
    (h : j ∈ idsOf (dictRemove d k)) : j ∈ idsOf d := by
  exact ((dictRemove_sublist d k).map Prod.fst).subset h

theorem le_foldr_max (l : List Nat) : ∀ a ∈ l, a ≤ l.foldr Nat.max 0 := by
  induction l with
  | nil => simp
  | cons b t ih =>
    intro a ha
    rcases List.mem_cons.mp ha with h | h
    · subst h
      exact Nat.le_max_left _ _
    · exact Nat.le_trans (ih a h) (Nat.le_max_right _ _)

/-! ### Statement vocabulary for the claims -/

/-- Equality of two tasks up to the textual encoding of the due date: same
title, description and completed flag, and due dates denoting the same point
in time. -/
def Task.equivFields (a b : Task) : Prop :=
  a.title = b.title ∧ a.description = b.description ∧
  a.completed = b.completed ∧ a.due_date.instant = b.due_date.instant

/-- Pointwise lifting of Task.equivFields to optional lookup results: both
absent, or both present and field-equivalent. -/
def optionTaskEquiv : Option Task → Option Task → Prop
  | none, none => True
  | some x, some y => Task.equivFields x y
  | _, _ => False

/-- Arguments of one add_task call in which the id argument is omitted. -/
structure AddParams where
  title : String
  due_date : PyDateTime
  description : String
  completed : Bool
deriving DecidableEq, Repr

/-- Performs a sequence of add_task calls, all with the id argument omitted,
returning the assigned ids in call order together with the final state. -/
def runAdds (w : World) : List AddParams → List Nat × World
  | [] => ([], w)
  | p :: ps =>
    let r := w.add_task p.title p.due_date p.description p.completed none
    let rest := runAdds r.2 ps
    (r.1.2 :: rest.1, rest.2)

theorem runAdds_ids (ps : List AddParams) (w : World) :
    (runAdds w ps).1 = List.range' (w.mgr.max_id + 1) ps.length := by
  induction ps generalizing w with
  | nil => simp [runAdds]
  | cons p ps ih =>
    have hid : (w.add_task p.title p.due_date p.description p.completed none).1.2
        = w.mgr.max_id + 1 := rfl
    have hmgr : (w.add_task p.title p.due_date p.description p.completed none).2.mgr.max_id
        = w.mgr.max_id + 1 := rfl
    simp only [runAdds, List.length_cons, List.range'_succ, hid, ih, hmgr]

/-! ### The claims -/

/-- C1: for every store state, saving and then constructing a new manager
from the same persisted document reproduces an equivalent mapping: the same
ids, and at each id a task with the same title, description and completed
flag and a due date equal as a point in time, whatever its textual form. -/
theorem c1_save_load_roundtrip (m : TaskManager) (disk : Option Document) :
    idsOf (TaskManager.init (World.save (World.mk m disk)).disk).task_dict
      = idsOf m.task_dict
    ∧ ∀ id, optionTaskEquiv
        (dictGet (TaskManager.init (World.save (World.mk m disk)).disk).task_dict id)
        (dictGet m.task_dict id) := by
  have hd : (World.save (World.mk m disk)).disk = some m.serialize := rfl
  rw [hd, init_serialize_task_dict]
  refine ⟨rfl, fun id => ?_⟩
  cases dictGet m.task_dict id with
  | none => exact trivial
  | some t => exact ⟨rfl, rfl, rfl, rfl⟩

/-- C2: on a freshly constructed empty store, a sequence of add_task calls
that all omit the id argument is assigned exactly the ids 1, 2, ..., n in
order; in particular the ids are strictly increasing, pairwise distinct and
positive, and the k-th call returns k. -/
theorem c2_auto_ids_count_from_one (ps : List AddParams) :
    (runAdds World.fresh ps).1 = List.range' 1 ps.length
    ∧ (runAdds World.fresh ps).1.Pairwise (· < ·)
    ∧ (∀ i ∈ (runAdds World.fresh ps).1, 0 < i)
    ∧ ∀ k, (runAdds World.fresh ps).1[k]?
        = if k < ps.length then some (k + 1) else none := by
  have h : (runAdds World.fresh ps).1 = List.range' 1 ps.length := by
    simpa using runAdds_ids ps World.fresh
  refine ⟨h, ?_, ?_, ?_⟩
  · rw [h]
    exact List.pairwise_lt_range' 1 ps.length
  · rw [h]
    intro i hi
    rw [List.mem_range'] at hi
    obtain ⟨j, hj, he⟩ := hi
    omega
  · intro k
    rw [h]
    by_cases hk : k < ps.length
    · rw [List.getElem?_eq_getElem (by simpa using hk), if_pos hk]
      simp [List.getElem_range']
      omega
    · rw [List.getElem?_eq_none (by simpa using Nat.le_of_not_lt hk), if_neg hk]

/-- Witness for C2: two parameterless-ids adds on the fresh store yield ids
1 and 2. -/
theorem c2_witness :
    (runAdds World.fresh
      [AddParams.mk "a" (PyDateTime.mk 0) "" false,
       AddParams.mk "b" (PyDateTime.mk 1) "x" true]).1 = [1, 2] :=
  (c2_auto_ids_count_from_one
    [AddParams.mk "a" (PyDateTime.mk 0) "" false,
     AddParams.mk "b" (PyDateTime.mk 1) "x" true]).1.trans (by decide)

/-! ### Characterizations of the fallible operations -/

theorem update_task_eq_none (m : TaskManager) (id : Nat) (ot : Option String)
    (od : Option PyDateTime) (ode : Option String) (oc : Option Bool)
    (hg : dictGet m.task_dict id = none) :
    m.update_task id ot od ode oc = none := by
  unfold TaskManager.update_task
  rw [hg]

theorem update_task_eq_some (m : TaskManager) (id : Nat) (ot : Option String)
    (od : Option PyDateTime) (ode : Option String) (oc : Option Bool)
    (task : Task) (hg : dictGet m.task_dict id = some task) :
    m.update_task id ot od ode oc
      = some (Task.mk (ot.getD task.title) (od.getD task.due_date)
            (oc.getD task.completed) (ode.getD task.description),
          TaskManager.mk
            (dictInsert m.task_dict id
              (Task.mk (ot.getD task.title) (od.getD task.due_date)
                (oc.getD task.completed) (ode.getD task.description)))
            m.max_id) := by
  unfold TaskManager.update_task
  rw [hg]

theorem delete_task_eq_some (m : TaskManager) (id : Nat) (task : Task)
    (hg : dictGet m.task_dict id = some task) :
    m.delete_task id = some (TaskManager.mk (dictRemove m.task_dict id) m.max_id) := by
  unfold TaskManager.delete_task
  rw [hg]

/-- C3 claim below quantifies over a store state; this is its invariant. -/
def Inv (m : TaskManager) : Prop :=
  ∀ k ∈ idsOf m.task_dict, k ≤ m.max_id

/-- C3: on any store state, add_task with an explicit positive id K returns
id K unchanged (the store itself performs no collision check), and an
immediately following add_task without id is assigned max(K, previous
max_id) + 1, where previous max_id is the counter before the first call. -/
theorem c3_explicit_id_then_auto (m : TaskManager) (disk : Option Document)
    (K : Nat) (hK : 0 < K)
    (ta : String) (da : PyDateTime) (dea : String) (ca : Bool)
    (tb : String) (db : PyDateTime) (deb : String) (cb : Bool) :
    ((World.mk m disk).add_task ta da dea ca (some K)).1.2 = K
    ∧ (((World.mk m disk).add_task ta da dea ca (some K)).2.add_task
        tb db deb cb none).1.2 = max K m.max_id + 1 := by
  constructor
  · rfl
  · show (if m.max_id < K then K else m.max_id) + 1 = max K m.max_id + 1
    rcases Nat.le_total K m.max_id with h | h
    · rw [Nat.max_eq_right h, if_neg (by omega)]
    · rw [Nat.max_eq_left h]
      by_cases h2 : m.max_id < K
      · rw [if_pos h2]
      · rw [if_neg h2]
        omega

/-- Witness for C3: on the empty store, add with id 5 returns 5 and the next
automatic id is 6. -/
theorem c3_witness :
    ((World.mk (TaskManager.mk [] 0) none).add_task "a" (PyDateTime.mk 0) "" false
        (some 5)).1.2 = 5
    ∧ (((World.mk (TaskManager.mk [] 0) none).add_task "a" (PyDateTime.mk 0) "" false
        (some 5)).2.add_task "b" (PyDateTime.mk 1) "" false none).1.2 = 6 := by
  have h := c3_explicit_id_then_auto (TaskManager.mk [] 0) none 5 (by decide)
    "a" (PyDateTime.mk 0) "" false "b" (PyDateTime.mk 1) "" false
  exact ⟨h.1, h.2.trans (by decide)⟩

/-- C4: the invariant that max_id dominates every key present holds after
construction from any document and is preserved by add_task, update_task,
delete_task and delete_all_tasks; and deleting the largest id can leave
max_id strictly above every remaining key. -/
theorem c4_max_id_dominates_keys :
    (∀ doc, Inv (TaskManager.init doc))
    ∧ (∀ m t d de c i, Inv m → Inv (m.add_task t d de c i).2)
    ∧ (∀ m id ot od ode oc t m', Inv m →
        m.update_task id ot od ode oc = some (t, m') → Inv m')
    ∧ (∀ m id m', Inv m → m.delete_task id = some m' → Inv m')
    ∧ (∀ m, Inv m → Inv m.delete_all_tasks)
    ∧ (∃ m id m', Inv m ∧ m.delete_task id = some m'
        ∧ ∀ k ∈ idsOf m'.task_dict, k < m'.max_id) := by
  refine ⟨?_, ?_, ?_, ?_, ?_, ?_⟩
  · intro doc
    cases doc with
    | none =>
      intro k hk
      simp [TaskManager.init, idsOf] at hk
    | some d =>
      have hinit : (TaskManager.init (some d)).task_dict
          = d.map (fun p => (stringToNat p.1, p.2.deserialize)) := rfl
      have hmax : (TaskManager.init (some d)).max_id
          = (if (d.map (fun p => (stringToNat p.1, p.2.deserialize))).isEmpty then 0
             else (idsOf (d.map (fun p =>
                (stringToNat p.1, p.2.deserialize)))).foldr Nat.max 0) := rfl
      intro k hk
      rw [hinit] at hk
      rw [hmax]
      have hne : (d.map (fun p => (stringToNat p.1, p.2.deserialize))).isEmpty = false := by
        cases hl : d.map (fun p => (stringToNat p.1, p.2.deserialize)) with
        | nil =>
          rw [hl] at hk
          simp [idsOf] at hk
        | cons a t => rfl
      rw [hne]
      simpa using le_foldr_max _ k hk
  · intro m t d de c i hInv j hj
    cases i with
    | none =>
      have hK : (m.add_task t d de c none).2.task_dict
          = dictInsert m.task_dict (m.max_id + 1) (Task.mk t d c de) := rfl
      have hM : (m.add_task t d de c none).2.max_id = m.max_id + 1 := rfl
      rw [hK] at hj
      rw [hM]
      rcases mem_idsOf_dictInsert _ _ _ _ hj with h | h
      · exact Nat.le_succ_of_le (hInv j h)
      · omega
    | some K =>
      have hK : (m.add_task t d de c (some K)).2.task_dict
          = dictInsert m.task_dict K (Task.mk t d c de) := rfl
      have hM : (m.add_task t d de c (some K)).2.max_id
          = (if m.max_id < K then K else m.max_id) := rfl
      rw [hK] at hj
      rw [hM]
      rcases mem_idsOf_dictInsert _ _ _ _ hj with h | h
      · have := hInv j h
        split <;> omega
      · subst h
        split <;> omega
  · intro m id ot od ode oc t m' hInv heq
    cases hg : dictGet m.task_dict id with
    | none =>
      rw [update_task_eq_none m id ot od ode oc hg] at heq
      exact absurd heq (by simp)
    | some task =>
      rw [update_task_eq_some m id ot od ode oc task hg] at heq
      simp only [Option.some.injEq, Prod.mk.injEq] at heq
      obtain ⟨ht, hm'⟩ := heq
      subst hm'
      intro j hj
      rw [idsOf_dictInsert_of_mem _ _ _ (by rw [hg]; rfl)] at hj
      exact hInv j hj
  · intro m id m' hInv heq
    cases hg : dictGet m.task_dict id with
    | none =>
      unfold TaskManager.delete_task at heq
      rw [hg] at heq
      exact absurd heq (by simp)
    | some task =>
      rw [delete_task_eq_some m id task hg] at heq
      simp only [Option.some.injEq] at heq
      subst heq
      intro j hj
      exact hInv j (mem_idsOf_dictRemove _ _ _ hj)
  · intro m hInv j hj
    simp [TaskManager.delete_all_tasks, idsOf] at hj
  · refine ⟨TaskManager.mk [(1, Task.mk "t" (PyDateTime.mk 0) false ""),
        (2, Task.mk "u" (PyDateTime.mk 0) false "")] 2, 2,
      TaskManager.mk [(1, Task.mk "t" (PyDateTime.mk 0) false "")] 2, ?_, ?_, ?_⟩
    · intro k hk
      simp [idsOf] at hk
      show k ≤ 2
      omega
    · rfl
    · intro k hk
      simp [idsOf] at hk
      show k < 2
      omega

/-- Witness for C4: the preservation parts applied on a concrete state. -/
theorem c4_witness :
    Inv ((TaskManager.mk [] 0).add_task "a" (PyDateTime.mk 0) "" false none).2 :=
  c4_max_id_dominates_keys.2.1 (TaskManager.mk [] 0) "a" (PyDateTime.mk 0) "" false none
    (fun k hk => by simp [idsOf] at hk)

/-- Well-formedness of a store state: the mapping has no duplicate keys.
Every state a Python dict can be in satisfies this. -/
def WF (m : TaskManager) : Prop := (idsOf m.task_dict).Nodup

theorem mem_unique_of_nodup (d : List (Nat × Task)) (hnd : (idsOf d).Nodup)
    (id : Nat) (t1 t2 : Task) (h1 : (id, t1) ∈ d) (h2 : (id, t2) ∈ d) : t1 = t2 := by
  induction d with
  | nil => cases h1
  | cons p rest ih =>
    have hnd' := hnd
    unfold idsOf at hnd'
    rw [List.map_cons, List.nodup_cons] at hnd'
    obtain ⟨hnot, hrest⟩ := hnd'
    rcases List.mem_cons.mp h1 with h1' | h1' <;> rcases List.mem_cons.mp h2 with h2' | h2'
    · exact congrArg Prod.snd (h1'.trans h2'.symm)
    · exfalso
      apply hnot
      have hp1 : p.1 = id := by rw [← h1']
      rw [hp1]
      exact List.mem_map.mpr ⟨(id, t2), h2', rfl⟩
    · exfalso
      apply hnot
      have hp1 : p.1 = id := by rw [← h2']
      rw [hp1]
      exact List.mem_map.mpr ⟨(id, t1), h1', rfl⟩
    · exact ih hrest h1' h2'

theorem mem_ids_filter_completed (m : TaskManager) (b : Bool) (id : Nat) :
    id ∈ idsOf (m.task_dict.filter (fun p => p.2.completed == b))
      ↔ ∃ t, (id, t) ∈ m.task_dict ∧ t.completed = b := by
  unfold idsOf
  constructor
  · intro h
    obtain ⟨p, hp, he⟩ := List.mem_map.mp h
    obtain ⟨hpd, hpc⟩ := List.mem_filter.mp hp
    refine ⟨p.2, ?_, by simpa using hpc⟩
    rw [← he]
    simpa using hpd
  · rintro ⟨t, ht, hc⟩
    exact List.mem_map.mpr ⟨(id, t), List.mem_filter.mpr ⟨ht, by simpa using hc⟩, rfl⟩

/-- C5: for every store state, the id sets of list_tasks filtered to
completed and to uncompleted tasks are disjoint and together exactly cover
the id set of the full mapping. -/
theorem c5_completed_filter_partitions (m : TaskManager) (hwf : WF m) :
    (∀ id, (id ∈ idsOf (m.list_tasks none (some true) false)
          ∨ id ∈ idsOf (m.list_tasks none (some false) false))
        ↔ id ∈ idsOf m.task_dict)
    ∧ ∀ id, ¬(id ∈ idsOf (m.list_tasks none (some true) false)
          ∧ id ∈ idsOf (m.list_tasks none (some false) false)) := by
  have hl : ∀ b : Bool, m.list_tasks none (some b) false
      = m.task_dict.filter (fun p => p.2.completed == b) := fun b => rfl
  constructor
  · intro id
    rw [hl true, hl false, mem_ids_filter_completed, mem_ids_filter_completed]
    constructor
    · rintro (⟨t, ht, _⟩ | ⟨t, ht, _⟩) <;> exact List.mem_map_of_mem Prod.fst ht
    · intro hid
      obtain ⟨p, hp, he⟩ := List.mem_map.mp hid
      have hp' : (id, p.2) ∈ m.task_dict := by
        rw [← he]
        simpa using hp
      cases hc : p.2.completed with
      | true => exact Or.inl ⟨p.2, hp', hc⟩
      | false => exact Or.inr ⟨p.2, hp', hc⟩
  · intro id hand
    obtain ⟨h1, h2⟩ := hand
    rw [hl true, mem_ids_filter_completed] at h1
    rw [hl false, mem_ids_filter_completed] at h2
    obtain ⟨t1, ht1, hc1⟩ := h1
    obtain ⟨t2, ht2, hc2⟩ := h2
    have heq := mem_unique_of_nodup m.task_dict hwf id t1 t2 ht1 ht2
    rw [heq, hc2] at hc1
    cases hc1

/-- Witness for C5 on a concrete two-task store. -/
theorem c5_witness :
    (∀ id, (id ∈ idsOf ((TaskManager.mk
            [(1, Task.mk "a" (PyDateTime.mk 0) true ""),
             (2, Task.mk "b" (PyDateTime.mk 0) false "")] 2).list_tasks
            none (some true) false)
          ∨ id ∈ idsOf ((TaskManager.mk
            [(1, Task.mk "a" (PyDateTime.mk 0) true ""),
             (2, Task.mk "b" (PyDateTime.mk 0) false "")] 2).list_tasks
            none (some false) false))
        ↔ id ∈ idsOf (TaskManager.mk
            [(1, Task.mk "a" (PyDateTime.mk 0) true ""),
             (2, Task.mk "b" (PyDateTime.mk 0) false "")] 2).task_dict)
    ∧ ∀ id, ¬(id ∈ idsOf ((TaskManager.mk
            [(1, Task.mk "a" (PyDateTime.mk 0) true ""),
             (2, Task.mk "b" (PyDateTime.mk 0) false "")] 2).list_tasks
            none (some true) false)
          ∧ id ∈ idsOf ((TaskManager.mk
            [(1, Task.mk "a" (PyDateTime.mk 0) true ""),
             (2, Task.mk "b" (PyDateTime.mk 0) false "")] 2).list_tasks
            none (some false) false)) :=
  c5_completed_filter_partitions
    (TaskManager.mk
      [(1, Task.mk "a" (PyDateTime.mk 0) true ""),
       (2, Task.mk "b" (PyDateTime.mk 0) false "")] 2)
    (by unfold WF idsOf
        decide)

theorem titles_sorted (l : List (Nat × Task)) :
    ((l.mergeSort (fun a b => decide (a.2.title ≤ b.2.title))).map
        (fun p => p.2.title)).Pairwise (· ≤ ·) := by
  rw [List.pairwise_map]
  have hp : (l.mergeSort (fun a b => decide (a.2.title ≤ b.2.title))).Pairwise
      (fun a b => decide (a.2.title ≤ b.2.title) = true) :=
    @List.sorted_mergeSort _ (fun a b => decide (a.2.title ≤ b.2.title))
      (fun a b c hab hbc =>
        decide_eq_true (le_trans (of_decide_eq_true hab) (of_decide_eq_true hbc)))
      (fun a b => by
        rcases le_total a.2.title b.2.title with hle | hle <;> simp [hle])
      l
  exact hp.imp (fun hab => of_decide_eq_true hab)

/-- C6: sorting by title yields lexically non-decreasing titles, and the
reverse flag returns exactly the reversal of that sorted sequence. -/
theorem c6_title_sort_sorted_and_reversed (m : TaskManager) (c : Option Bool) :
    ((m.list_tasks (some "title") c false).map (fun p => p.2.title)).Pairwise (· ≤ ·)
    ∧ m.list_tasks (some "title") c true
        = (m.list_tasks (some "title") c false).reverse := by
  constructor
  · have h : m.list_tasks (some "title") c false
        = (match c with
           | none => m.task_dict
           | some b => m.task_dict.filter (fun p => p.2.completed == b)).mergeSort
            (fun a b => decide (a.2.title ≤ b.2.title)) := by
      cases c <;> rfl
    rw [h]
    exact titles_sorted _
  · cases c <;> rfl

/-- C7: update_task against an id that is not in the mapping fails with the
KeyError (NotFound) outcome and leaves both the in-memory mapping and the
persisted document exactly as they were: no field changes and no save. -/
theorem c7_update_absent_id_fails_unchanged (m : TaskManager) (disk : Option Document)
    (id : Nat) (ot : Option String) (od : Option PyDateTime) (ode : Option String)
    (oc : Option Bool) (h : dictGet m.task_dict id = none) :
    (World.mk m disk).update_task id ot od ode oc = (none, World.mk m disk) := by
  unfold World.update_task
  rw [update_task_eq_none m id ot od ode oc h]

/-- Witness for C7: updating id 3 on an empty store fails and changes
nothing. -/
theorem c7_witness :
    (World.mk (TaskManager.mk [] 0) none).update_task 3 (some "x") none none none
      = (none, World.mk (TaskManager.mk [] 0) none) :=
  c7_update_absent_id_fails_unchanged (TaskManager.mk [] 0) none 3
    (some "x") none none none rfl

/-- C8: without a sort key, list_tasks returns the pairs in the mapping's
insertion order: the result is a subsequence of the mapping consisting
exactly of the pairs passing the completion filter, and the reverse flag
returns exactly its reversal. -/
theorem c8_no_sort_keeps_insertion_order (m : TaskManager) (c : Option Bool) :
    (m.list_tasks none c false).Sublist m.task_dict
    ∧ (∀ p, p ∈ m.list_tasks none c false
        ↔ p ∈ m.task_dict ∧ ∀ b, c = some b → p.2.completed = b)
    ∧ m.list_tasks none c true = (m.list_tasks none c false).reverse := by
  have hl : m.list_tasks none c false
      = (match c with
         | none => m.task_dict
         | some b => m.task_dict.filter (fun p => p.2.completed == b)) := by
    cases c <;> rfl
  refine ⟨?_, ?_, ?_⟩
  · rw [hl]
    cases c with
    | none => exact List.Sublist.refl _
    | some b => exact List.filter_sublist _
  · intro p
    rw [hl]
    cases c with
    | none => simp
    | some b =>
      rw [List.mem_filter]
      simp
  · cases c <;> rfl

/-- Witness for C8 on a concrete two-task store with the completed filter. -/
theorem c8_witness :
    ((TaskManager.mk [(1, Task.mk "a" (PyDateTime.mk 0) true ""),
        (2, Task.mk "b" (PyDateTime.mk 0) false "")] 2).list_tasks
        none (some true) false).Sublist
      (TaskManager.mk [(1, Task.mk "a" (PyDateTime.mk 0) true ""),
        (2, Task.mk "b" (PyDateTime.mk 0) false "")] 2).task_dict
    ∧ (∀ p, p ∈ (TaskManager.mk [(1, Task.mk "a" (PyDateTime.mk 0) true ""),
          (2, Task.mk "b" (PyDateTime.mk 0) false "")] 2).list_tasks
          none (some true) false
        ↔ p ∈ (TaskManager.mk [(1, Task.mk "a" (PyDateTime.mk 0) true ""),
            (2, Task.mk "b" (PyDateTime.mk 0) false "")] 2).task_dict
          ∧ ∀ b, (some true : Option Bool) = some b → p.2.completed = b)
    ∧ (TaskManager.mk [(1, Task.mk "a" (PyDateTime.mk 0) true ""),
        (2, Task.mk "b" (PyDateTime.mk 0) false "")] 2).list_tasks none (some true) true
      = ((TaskManager.mk [(1, Task.mk "a" (PyDateTime.mk 0) true ""),
          (2, Task.mk "b" (PyDateTime.mk 0) false "")] 2).list_tasks
          none (some true) false).reverse :=
  c8_no_sort_keeps_insertion_order
    (TaskManager.mk [(1, Task.mk "a" (PyDateTime.mk 0) true ""),
      (2, Task.mk "b" (PyDateTime.mk 0) false "")] 2) (some true)

/-- C9: update_task on a present id overwrites exactly the non-omitted
fields, keeps every omitted field and every other entry unchanged, keeps the
key sequence and counter unchanged, stores the returned record at the id,
and persists the new state. -/
theorem c9_update_overwrites_exactly (m : TaskManager) (disk : Option Document)
    (id : Nat) (ot : Option String) (od : Option PyDateTime) (ode : Option String)
    (oc : Option Bool) (task : Task)
    (h : dictGet m.task_dict id = some task) :
    ∃ t' m', (World.mk m disk).update_task id ot od ode oc
          = (some t', World.mk m' (some m'.serialize))
      ∧ t'.title = ot.getD task.title
      ∧ t'.due_date = od.getD task.due_date
      ∧ t'.description = ode.getD task.description
      ∧ t'.completed = oc.getD task.completed
      ∧ dictGet m'.task_dict id = some t'
      ∧ (∀ j, j ≠ id → dictGet m'.task_dict j = dictGet m.task_dict j)
      ∧ idsOf m'.task_dict = idsOf m.task_dict
      ∧ m'.max_id = m.max_id := by
  refine ⟨Task.mk (ot.getD task.title) (od.getD task.due_date)
      (oc.getD task.completed) (ode.getD task.description),
    TaskManager.mk (dictInsert m.task_dict id
      (Task.mk (ot.getD task.title) (od.getD task.due_date)
        (oc.getD task.completed) (ode.getD task.description))) m.max_id,
    ?_, rfl, rfl, rfl, rfl, ?_, ?_, ?_, rfl⟩
  · unfold World.update_task
    rw [update_task_eq_some m id ot od ode oc task h]
    rfl
  · exact dictGet_dictInsert_self _ _ _
  · exact fun j hj => dictGet_dictInsert_ne _ _ _ _ hj
  · exact idsOf_dictInsert_of_mem _ _ _ (by rw [h]; rfl)

/-- Witness for C9: updating only the title of task 1 on a one-task store. -/
theorem c9_witness :
    ∃ t' m', (World.mk (TaskManager.mk [(1, Task.mk "a" (PyDateTime.mk 0) false "d")] 1)
          none).update_task 1 (some "b") none none none
          = (some t', World.mk m' (some m'.serialize))
      ∧ t'.title = (some "b").getD (Task.mk "a" (PyDateTime.mk 0) false "d").title
      ∧ t'.due_date = Option.getD none (Task.mk "a" (PyDateTime.mk 0) false "d").due_date
      ∧ t'.description = Option.getD none (Task.mk "a" (PyDateTime.mk 0) false "d").description
      ∧ t'.completed = Option.getD none (Task.mk "a" (PyDateTime.mk 0) false "d").completed
      ∧ dictGet m'.task_dict 1 = some t'
      ∧ (∀ j, j ≠ 1 → dictGet m'.task_dict j
          = dictGet (TaskManager.mk [(1, Task.mk "a" (PyDateTime.mk 0) false "d")] 1).task_dict j)
      ∧ idsOf m'.task_dict
          = idsOf (TaskManager.mk [(1, Task.mk "a" (PyDateTime.mk 0) false "d")] 1).task_dict
      ∧ m'.max_id = (TaskManager.mk [(1, Task.mk "a" (PyDateTime.mk 0) false "d")] 1).max_id :=
  c9_update_overwrites_exactly
    (TaskManager.mk [(1, Task.mk "a" (PyDateTime.mk 0) false "d")] 1) none 1
    (some "b") none none none (Task.mk "a" (PyDateTime.mk 0) false "d") rfl

/-- C10: add_task with an explicit id that is already a key raises no error:
it returns that id, silently replaces the stored record, and leaves the key
sequence, the size and every other entry unchanged; the collision check
lives only in the validate_unused_id boundary helper, which rejects exactly
such an id. -/
theorem c10_add_existing_id_replaces (m : TaskManager) (disk : Option Document)
    (title : String) (due : PyDateTime) (desc : String) (comp : Bool)
    (K : Nat) (t0 : Task) (h : dictGet m.task_dict K = some t0) :
    ((World.mk m disk).add_task title due desc comp (some K)).1.2 = K
    ∧ idsOf ((World.mk m disk).add_task title due desc comp (some K)).2.mgr.task_dict
        = idsOf m.task_dict
    ∧ ((World.mk m disk).add_task title due desc comp (some K)).2.mgr.task_dict.length
        = m.task_dict.length
    ∧ dictGet ((World.mk m disk).add_task title due desc comp (some K)).2.mgr.task_dict K
        = some (Task.mk title due comp desc)
    ∧ (∀ j, j ≠ K →
        dictGet ((World.mk m disk).add_task title due desc comp (some K)).2.mgr.task_dict j
          = dictGet m.task_dict j)
    ∧ ∀ s, validate_id s = Except.ok K →
        validate_unused_id m s = Except.error ("ID " ++ s ++ " is already in use.") := by
  have hsome : (dictGet m.task_dict K).isSome := by
    rw [h]
    rfl
  have hids := idsOf_dictInsert_of_mem m.task_dict K (Task.mk title due comp desc) hsome
  refine ⟨rfl, hids, ?_, ?_, ?_, ?_⟩
  · have hlen : (idsOf (dictInsert m.task_dict K (Task.mk title due comp desc))).length
        = (idsOf m.task_dict).length := by rw [hids]
    simpa [idsOf] using hlen
  · exact dictGet_dictInsert_self _ _ _
  · exact fun j hj => dictGet_dictInsert_ne _ _ _ _ hj
  · intro s hs
    unfold validate_unused_id
    rw [hs]
    simp [hsome]

/-- Witness for C10: adding with explicit id 3 on a store already holding
id 3. -/
theorem c10_witness :
    ((World.mk (TaskManager.mk [(3, Task.mk "old" (PyDateTime.mk 0) false "")] 3)
          none).add_task "new" (PyDateTime.mk 1) "d" true (some 3)).1.2 = 3
    ∧ idsOf ((World.mk (TaskManager.mk [(3, Task.mk "old" (PyDateTime.mk 0) false "")] 3)
          none).add_task "new" (PyDateTime.mk 1) "d" true (some 3)).2.mgr.task_dict
        = idsOf (TaskManager.mk [(3, Task.mk "old" (PyDateTime.mk 0) false "")] 3).task_dict
    ∧ ((World.mk (TaskManager.mk [(3, Task.mk "old" (PyDateTime.mk 0) false "")] 3)
          none).add_task "new" (PyDateTime.mk 1) "d" true (some 3)).2.mgr.task_dict.length
        = (TaskManager.mk [(3, Task.mk "old" (PyDateTime.mk 0) false "")] 3).task_dict.length
    ∧ dictGet ((World.mk (TaskManager.mk [(3, Task.mk "old" (PyDateTime.mk 0) false "")] 3)
          none).add_task "new" (PyDateTime.mk 1) "d" true (some 3)).2.mgr.task_dict 3
        = some (Task.mk "new" (PyDateTime.mk 1) true "d")
    ∧ (∀ j, j ≠ 3 →
        dictGet ((World.mk (TaskManager.mk [(3, Task.mk "old" (PyDateTime.mk 0) false "")] 3)
            none).add_task "new" (PyDateTime.mk 1) "d" true (some 3)).2.mgr.task_dict j
          = dictGet (TaskManager.mk
              [(3, Task.mk "old" (PyDateTime.mk 0) false "")] 3).task_dict j)
    ∧ ∀ s, validate_id s = Except.ok 3 →
        validate_unused_id (TaskManager.mk [(3, Task.mk "old" (PyDateTime.mk 0) false "")] 3) s
          = Except.error ("ID " ++ s ++ " is already in use.") :=
  c10_add_existing_id_replaces
    (TaskManager.mk [(3, Task.mk "old" (PyDateTime.mk 0) false "")] 3) none
    "new" (PyDateTime.mk 1) "d" true 3 (Task.mk "old" (PyDateTime.mk 0) false "") rfl

end Zolldo
